import Mathlib

/-!
Verification of the `workspaces foreach` command (berry workspace tools).

This file is a shallow embedding of the command's source: the recursive
candidate walk (`getWorkspaceChildrenRecursive`), the candidate filter loop,
the round-based scheduler over the pending map (`needsProcessing`) and the
processing set, cycle detection, the topological eligibility check, the
bounded-concurrency admission gate, and the per-task output-sink lifecycle
of `runCommand`.  External collaborators (the `p-limit` gate, the
`StreamReport` sink, the clipanion argument parser) are modelled at their
boundary as the spec describes them; each such definition says so in its
doc comment.
-/

namespace Foreach

/-- A dependency descriptor, identified by its `descriptorHash` (the only part
of a descriptor this command inspects). -/
structure Descriptor where
  descriptorHash : Nat
deriving DecidableEq, Repr

/-- A workspace, restricted to the fields the command reads:
`anchoredLocator.locatorHash`, `anchoredDescriptor.descriptorHash`,
`locator.name`, `cwd`, `workspacesCwds`, the declared script names of
`manifest.scripts`, and the descriptor values of `manifest.dependencies`
and `manifest.devDependencies`. -/
structure Workspace where
  locatorHash : Nat
  descriptorHash : Nat
  name : String
  cwd : String
  workspacesCwds : List String
  scripts : List String
  dependencies : List Descriptor
  devDependencies : List Descriptor
deriving DecidableEq, Repr

/-- The project, restricted to the members the command uses:
`workspacesByCwd`, `findWorkspacesByDescriptor` and `topLevelWorkspace`. -/
structure Project where
  workspacesByCwd : String → Option Workspace
  findWorkspacesByDescriptor : Descriptor → List Workspace
  topLevelWorkspace : Workspace

/-- Embeds `getWorkspaceChildrenRecursive`: for every child cwd of the root,
look the child up in `project.workspacesByCwd` and, when found, emit the
child followed by its own recursive children (root-first, depth-first, no
deduplication).  The source recursion is structurally unbounded, so a fuel
argument is added for termination; with fuel at least the tree depth the
fuelled function computes the same list as the source. -/
def getWorkspaceChildrenRecursive (project : Project) : Nat → Workspace → List Workspace
  | 0, _ => []
  | fuel + 1, rootWorkspace =>
    rootWorkspace.workspacesCwds.flatMap fun childWorkspaceCwd =>
      match project.workspacesByCwd childWorkspaceCwd with
      | some childWorkspace =>
          childWorkspace :: getWorkspaceChildrenRecursive project fuel childWorkspace
      | none => []

/-- An insertion-ordered map from locator hashes to workspaces, embedding the
JS `Map<LocatorHash, Workspace>` used for `needsProcessing`. -/
abbrev PendingMap := List (Nat × Workspace)

/-- Embeds `Map.has`. -/
def mapHas (m : PendingMap) (k : Nat) : Bool :=
  m.any fun e => e.1 == k

/-- Embeds `Map.set`: updating an existing key keeps its insertion position,
a new key is appended. -/
def mapSet (m : PendingMap) (k : Nat) (v : Workspace) : PendingMap :=
  if mapHas m k then m.map (fun e => if e.1 == k then (k, v) else e)
  else m ++ [(k, v)]

/-- Embeds `Map.delete` for a map whose keys are distinct (every map built by
this command is, since it only grows through `mapSet`). -/
def eraseKey (m : PendingMap) (k : Nat) : PendingMap :=
  m.filter fun e => !(e.1 == k)

/-- Embeds `Set.add` on the processing set of descriptor hashes. -/
def setAdd (s : List Nat) (d : Nat) : List Nat :=
  if s.contains d then s else s ++ [d]

/-- Errors the command handler can throw: `WorkspaceRequiredError` (line 103),
`UsageError` for an empty subcommand path (line 111), the `TypeError` raised
when the self-recursion guard dereferences `cwdWorkspace!` while it is null
(line 127), and an executor exception propagating out of a task (line 258). -/
inductive ForeachErr where
  | workspaceRequired
  | usageInvalidSubcommand
  | nullCwdWorkspace
  | executorRaised
deriving DecidableEq, Repr

/-- The inputs of the candidate filter loop (lines 120-137): the derived
script name (`none` embeds JS `null`), the requested command, the
`process.env.npm_lifecycle_event` value (`none` embeds an unset variable),
the current-directory workspace, and the include/exclude name lists. -/
structure SelCtx where
  scriptName : Option String
  command : String
  lifecycleEvent : Option String
  cwdWorkspace : Option Workspace
  includeList : List String
  excludeList : List String

/-- Embeds the two filters of lines 130-134: keep a workspace iff the include
whitelist is empty or names it, and the exclude list is empty or does not
name it. -/
def filterIncludeExclude (ctx : SelCtx) (w : Workspace) : Bool :=
  (ctx.includeList.isEmpty || ctx.includeList.contains w.name) &&
  (ctx.excludeList.isEmpty || !(ctx.excludeList.contains w.name))

/-- Embeds one iteration of the candidate loop (lines 120-137): the script
filter, then the self-recursion guard — which dereferences `cwdWorkspace!`
and therefore raises when the guard condition holds while `cwdWorkspace` is
absent — then the include/exclude filters.  Returns whether the workspace is
kept. -/
def keepWorkspace (ctx : SelCtx) (w : Workspace) : Except ForeachErr Bool :=
  if (match ctx.scriptName with
      | some s => !(w.scripts.contains s)
      | none => false) then
    .ok false
  else if ctx.lifecycleEvent == some (ctx.scriptName.getD ctx.command) then
    match ctx.cwdWorkspace with
    | none => .error .nullCwdWorkspace
    | some cw =>
      if w.cwd == cw.cwd then .ok false
      else .ok (filterIncludeExclude ctx w)
  else .ok (filterIncludeExclude ctx w)

/-- Embeds the whole candidate loop: the candidates are examined front to
back and the kept ones are collected in order; a raised guard aborts at the
first offending candidate. -/
def selectWorkspaces (ctx : SelCtx) : List Workspace → Except ForeachErr (List Workspace)
  | [] => .ok []
  | w :: rest => do
    let keep ← keepWorkspace ctx w
    let others ← selectWorkspaces ctx rest
    pure (if keep then w :: others else others)

/-- Spec-side filter (a): a workspace passes when no script name is implied
or it declares the implied script. -/
def passScript (scriptName : Option String) (w : Workspace) : Bool :=
  match scriptName with
  | some s => w.scripts.contains s
  | none => true

/-- Spec-side filter (b): a workspace passes unless the requested
script/command equals the command that triggered the current run and the
workspace is the originating (current-directory) workspace. -/
def passSelfGuard (ctx : SelCtx) (cw : Workspace) (w : Workspace) : Bool :=
  !((ctx.lifecycleEvent == some (ctx.scriptName.getD ctx.command)) && (w.cwd == cw.cwd))

/-- Spec-side filter (c): the include whitelist. -/
def passInclude (includeList : List String) (w : Workspace) : Bool :=
  includeList.isEmpty || includeList.contains w.name

/-- Spec-side filter (d): the exclude list. -/
def passExclude (excludeList : List String) (w : Workspace) : Bool :=
  excludeList.isEmpty || !(excludeList.contains w.name)

/-- The scheduler's mode flags. -/
structure SchedCfg where
  parallel : Bool
  topological : Bool
  topologicalDev : Bool
deriving DecidableEq, Repr

/-- Embeds lines 169-171: the dependency descriptors consulted for
eligibility — `dependencies` plus `devDependencies` when `topologicalDev`
is set, `dependencies` alone otherwise. -/
def relevantDeps (topologicalDev : Bool) (w : Workspace) : List Descriptor :=
  if topologicalDev then w.dependencies ++ w.devDependencies else w.dependencies

/-- Embeds the descriptor loop of lines 173-183: `isRunnable` is recomputed
per descriptor and the loop breaks at the first descriptor some of whose
resolved workspaces are still pending. -/
def depsRunnable (project : Project) (pending : PendingMap) : List Descriptor → Bool
  | [] => true
  | d :: ds =>
    if (project.findWorkspacesByDescriptor d).any
        (fun w2 => mapHas pending w2.locatorHash) then false
    else depsRunnable project pending ds

/-- Embeds lines 166-184: outside the topological modes every task is
runnable; in a topological mode runnability is the descriptor check above. -/
def isRunnable (cfg : SchedCfg) (project : Project) (pending : PendingMap)
    (w : Workspace) : Bool :=
  if cfg.topological || cfg.topologicalDev then
    depsRunnable project pending (relevantDeps cfg.topologicalDev w)
  else true

/-- Embeds the scan of lines 161-207 over the entries of `needsProcessing`:
skip entries already in the processing set, skip non-runnable entries,
otherwise add the descriptor hash to the processing set and dispatch the
entry; without `parallel` the scan breaks after the first dispatch.
`pending` is the full map consulted by the eligibility check (the scan does
not mutate it), `entries` is the tail still to scan. -/
def scanEntries (cfg : SchedCfg) (project : Project) (pending : PendingMap) :
    List (Nat × Workspace) → List Nat → List (Nat × Workspace) × List Nat
  | [], processing => ([], processing)
  | e :: rest, processing =>
    if processing.contains e.2.descriptorHash then
      scanEntries cfg project pending rest processing
    else if isRunnable cfg project pending e.2 then
      let processing' := setAdd processing e.2.descriptorHash
      if cfg.parallel then
        let s := scanEntries cfg project pending rest processing'
        (e :: s.1, s.2)
      else ([e], processing')
    else scanEntries cfg project pending rest processing

/-- One round's scan: iterate over the current pending map itself. -/
def scanRound (cfg : SchedCfg) (project : Project) (pending : PendingMap)
    (processing : List Nat) : List (Nat × Workspace) × List Nat :=
  scanEntries cfg project pending pending processing

/-- Embeds awaiting `Promise.all(commandPromises)`: each dispatched task runs
the executor; a task for which the executor raises (instead of returning an
exit code) makes the whole await reject — the collected exit codes are then
discarded and the flag in the second component is set. -/
def runDispatched (exec : Workspace → Except Unit Int) :
    List (Nat × Workspace) → List (Workspace × Int) × Bool
  | [] => ([], false)
  | e :: rest =>
    match exec e.2 with
    | .ok c =>
      let r := runDispatched exec rest
      ((e.2, c) :: r.1, r.2)
    | .error _ => ([], true)

/-- The two kinds of report errors this command emits: the fatal
cyclic-dependency error carrying the pretty-printed still-pending
workspaces (lines 209-214), and the topological propagation error
(line 220). -/
inductive RunError where
  | cyclic (names : List String) (msg : String)
  | topoFailed
deriving DecidableEq, Repr

/-- How the scheduler loop ended: pending drained or `hasErrors` break
(`completed`), the cycle-detection early return, an executor exception, or
fuel exhaustion of the embedding (never reached with enough fuel). -/
inductive Outcome where
  | completed
  | cycleDetected
  | raised
  | fuelOut
deriving DecidableEq, Repr

/-- The observable result of the scheduler loop: the tasks that ran with
their exit codes (in dispatch order), the report's error list, the number
of rounds whose scan was reached, how the loop ended, and the pending map
at exit. -/
structure RunRes where
  executed : List (Workspace × Int)
  errors : List RunError
  roundsScanned : Nat
  outcome : Outcome
  pendingLeft : PendingMap
deriving DecidableEq, Repr

/-- Modelled from the spec: `structUtils.prettyLocator` renders a locator's
display name; only the name matters to the claims. -/
def prettyLocator (w : Workspace) : String :=
  w.name

/-- The message of the cyclic-dependency report error (line 214). -/
def cycleMessage (names : List String) : String :=
  "Dependency cycle detected (" ++ String.intercalate ", " names ++ ")"

/-- Embeds the `while (needsProcessing.size > 0)` loop (lines 155-222).
Each iteration: stop when pending is empty; stop when the report already
has errors; scan the pending map; if nothing was dispatched report the
fatal cycle error naming every still-pending workspace and return
immediately; otherwise await all dispatched tasks (an executor exception
aborts the loop with outcome `raised`), report the topological propagation
error when a topological mode is on and some exit code is non-zero, delete
the finished tasks from the pending map and the processing set, and loop.
The report's error list is threaded as `errs`; fuel bounds the recursion
(one unit per round — any fuel above the pending size is enough). -/
def runLoop (cfg : SchedCfg) (project : Project) (exec : Workspace → Except Unit Int) :
    Nat → PendingMap → List Nat → List RunError → RunRes
  | 0, pending, _, errs => ⟨[], errs, 0, .fuelOut, pending⟩
  | fuel + 1, pending, processing, errs =>
    if pending.isEmpty then ⟨[], errs, 0, .completed, pending⟩
    else if !errs.isEmpty then ⟨[], errs, 0, .completed, pending⟩
    else
      let sr := scanRound cfg project pending processing
      if sr.1.isEmpty then
        ⟨[], errs ++ [.cyclic (pending.map fun e => prettyLocator e.2)
              (cycleMessage (pending.map fun e => prettyLocator e.2))],
          1, .cycleDetected, pending⟩
      else
        let rd := runDispatched exec sr.1
        if rd.2 then ⟨rd.1, errs, 1, .raised, pending⟩
        else
          let errs' := if (cfg.topological || cfg.topologicalDev) &&
              rd.1.any (fun p => !(p.2 == 0)) then errs ++ [.topoFailed] else errs
          let pending' := sr.1.foldl (fun m e => eraseKey m e.1) pending
          let processing' := sr.1.foldl (fun s e => s.erase e.2.descriptorHash) sr.2
          let rest := runLoop cfg project exec fuel pending' processing' errs'
          ⟨rd.1 ++ rest.executed, rest.errors, 1 + rest.roundsScanned,
            rest.outcome, rest.pendingLeft⟩

/-- Embeds lines 152-153: seed `needsProcessing` from the selected
workspaces, keyed by `anchoredLocator.locatorHash`. -/
def seedPending (workspaces : List Workspace) : PendingMap :=
  workspaces.foldl (fun m w => mapSet m w.locatorHash w) []

/-- Embeds lines 106-108 at the boundary of the clipanion parser: the
implied script name is the first parsed argument when the command path is
exactly `run` and an argument follows, else null. -/
def scriptNameOf (commandPath parsedArgs : List String) : Option String :=
  match commandPath, parsedArgs with
  | [p], a :: _ => if p == "run" then some a else none
  | _, _ => none

/-- Embeds lines 146-147: the gate's size is `jobs || concurrency`, where
`concurrency` is `max 1 (cpuCount / 2)` under `parallel` and `1` otherwise,
and `jobs = 0` embeds an unset (falsy) `--jobs`. -/
def limitOf (parallel : Bool) (jobs cpuCount : Nat) : Nat :=
  let concurrency := if parallel then max 1 (cpuCount / 2) else 1
  if jobs == 0 then concurrency else jobs

/-- The command's option record (the clipanion parse of `[command, ...rest]`
is supplied at the boundary as `commandPath`/`parsedArgs`). -/
structure ForeachOpts where
  command : String
  rest : List String
  commandPath : List String
  parsedArgs : List String
  includeList : List String
  excludeList : List String
  all : Bool
  interlaced : Bool
  jobs : Nat
  parallel : Bool
  topological : Bool
  topologicalDev : Bool
  verbose : Bool
deriving DecidableEq, Repr

/-- A completed action: the scheduler result plus the report's final exit
code (line 263). -/
structure ActionResult where
  runRes : RunRes
  exitCode : Nat
deriving DecidableEq, Repr

/-- Modelled from the spec: `StreamReport.exitCode` (external) aggregates to
non-zero exactly when an error was reported. -/
def reportExitCode (errors : List RunError) : Nat :=
  if errors.isEmpty then 0 else 1

/-- Embeds the command handler (lines 97-264): the current-workspace
context check, the empty-subcommand usage check, root selection, the
candidate walk and filter loop, seeding the pending map, the scheduler
loop, and the final `report.exitCode()`.  A thrown error is an `Except`
error; an executor exception propagating out of the loop is rethrown as
`executorRaised`. -/
def foreachAction (opts : ForeachOpts) (project : Project)
    (cwdWorkspace : Option Workspace) (lifecycleEvent : Option String)
    (exec : Workspace → Except Unit Int) (fuel treeFuel : Nat) :
    Except ForeachErr ActionResult :=
  if !opts.all && cwdWorkspace.isNone then .error .workspaceRequired
  else if opts.commandPath.isEmpty then .error .usageInvalidSubcommand
  else
    match (if opts.all then some project.topLevelWorkspace else cwdWorkspace) with
    | none => .error .workspaceRequired
    | some rootWorkspace =>
      let scriptName := scriptNameOf opts.commandPath opts.parsedArgs
      let candidates :=
        rootWorkspace :: getWorkspaceChildrenRecursive project treeFuel rootWorkspace
      let ctx : SelCtx :=
        ⟨scriptName, opts.command, lifecycleEvent, cwdWorkspace,
          opts.includeList, opts.excludeList⟩
      match selectWorkspaces ctx candidates with
      | .error e => .error e
      | .ok workspaces =>
        let cfg : SchedCfg := ⟨opts.parallel, opts.topological, opts.topologicalDev⟩
        let res := runLoop cfg project exec fuel (seedPending workspaces) [] []
        if res.outcome == .raised then .error .executorRaised
        else .ok ⟨res, reportExitCode res.errors⟩

/-- Modelled from the spec: an error thrown out of the command handler makes
the process exit non-zero; a normal return exits with the report's code. -/
def processExitCode : Except ForeachErr ActionResult → Nat
  | .error _ => 1
  | .ok r => r.exitCode

/-- Admission events of the shared concurrency gate: a task starting (being
admitted) and a task finishing (releasing its slot). -/
inductive GateEv where
  | start (id : Nat)
  | finish (id : Nat)
deriving DecidableEq, Repr

/-- Modelled from the spec: the `p-limit` gate admits a queued task only
while fewer than `limit` tasks are running.  `gateOk limit running events`
checks that a whole-run event sequence respects admission from the state
`running`; the gate is created once (line 147) so a single check spans
every round. -/
def gateOk (limit : Nat) : List Nat → List GateEv → Bool
  | _, [] => true
  | running, .start i :: rest =>
    decide (running.length < limit) && gateOk limit (running ++ [i]) rest
  | running, .finish i :: rest => gateOk limit (running.erase i) rest

/-- The set of running tasks after a sequence of gate events, starting from
`running`. -/
def runningAfter : List Nat → List GateEv → List Nat
  | running, [] => running
  | running, .start i :: rest => runningAfter (running ++ [i]) rest
  | running, .finish i :: rest => runningAfter (running.erase i) rest

/-- Observable sink events of one task execution, in order: the verbose
separator, the `end()` signals of both sinks, awaiting both end promises,
and the verbose empty-output info line. -/
inductive StreamEv where
  | separator
  | endStdout
  | endStderr
  | awaitStdoutEnd
  | awaitStderrEnd
  | infoEmptyOutput
deriving DecidableEq, Repr

/-- Embeds `runCommand` (lines 224-260): the executor either returns an exit
code or raises; on both paths both sinks are ended and both end promises
awaited, then the exit code is returned or the exception is rethrown.
`emptyStdout`/`emptyStderr` are the values the end promises resolve to. -/
def runCommand (executorResult : Except Unit Int) (parallel verbose : Bool)
    (commandIndex : Nat) (emptyStdout emptyStderr : Bool) :
    Except Unit Int × List StreamEv :=
  let pre := if !parallel && verbose && decide (commandIndex > 1)
    then [StreamEv.separator] else []
  match executorResult with
  | .ok exitCode =>
    (.ok exitCode,
      pre ++ [.endStdout, .endStderr, .awaitStdoutEnd, .awaitStderrEnd] ++
        (if verbose && emptyStdout && emptyStderr then [.infoEmptyOutput] else []))
  | .error e =>
    (.error e, pre ++ [.endStdout, .endStderr, .awaitStdoutEnd, .awaitStderrEnd])

/-! Concrete fixtures used by the scenario theorems and witnesses. -/

/-- Descriptor of workspace A, as declared by B's manifest. -/
def dA : Descriptor := ⟨201⟩

/-- Workspace A: root of a two-workspace project, no dependencies. -/
def wsA : Workspace := ⟨1, 11, "A", "/a", ["/b"], [], [], []⟩

/-- Workspace B: child of A, depends on A. -/
def wsB : Workspace := ⟨2, 12, "B", "/b", [], [], [dA], []⟩

/-- The two-workspace project of A and B. -/
def projAB : Project :=
  ⟨fun c => if c == "/b" then some wsB else none,
   fun d => if d == dA then [wsA] else [],
   wsA⟩

/-- Descriptor of workspace X. -/
def dX : Descriptor := ⟨101⟩

/-- Descriptor of workspace Y. -/
def dY : Descriptor := ⟨102⟩

/-- Workspace X of the cycle scenario: depends on Y. -/
def wsX : Workspace := ⟨1, 11, "X", "/x", ["/y"], [], [dY], []⟩

/-- Workspace Y of the cycle scenario: depends on X. -/
def wsY : Workspace := ⟨2, 12, "Y", "/y", [], [], [dX], []⟩

/-- The mutually-dependent two-workspace project of X and Y. -/
def projXY : Project :=
  ⟨fun c => if c == "/y" then some wsY else none,
   fun d => if d == dX then [wsX] else if d == dY then [wsY] else [],
   wsX⟩

/-- Scheduler flags: sequential topological mode. -/
def cfgT : SchedCfg := ⟨false, true, false⟩

/-- A root-only workspace with no children and no scripts. -/
def wsRoot : Workspace := ⟨1, 11, "root", "/", [], [], [], []⟩

/-- The one-workspace project of `wsRoot`. -/
def projRoot : Project := ⟨fun _ => none, fun _ => [], wsRoot⟩

/-! Candidate-selector lemmas. -/

/-- When the current-directory workspace is present, one iteration of the
candidate loop computes exactly the conjunction of the four spec-side
filters. -/
theorem keepWorkspace_eq_filters (ctx : SelCtx) (cw : Workspace)
    (hcw : ctx.cwdWorkspace = some cw) (w : Workspace) :
    keepWorkspace ctx w =
      .ok (passScript ctx.scriptName w && (passSelfGuard ctx cw w &&
        (passInclude ctx.includeList w && passExclude ctx.excludeList w))) := by
  cases hs : ctx.scriptName with
  | none =>
    by_cases hl : ctx.lifecycleEvent = some ctx.command <;>
      by_cases hc : w.cwd = cw.cwd <;>
        simp [keepWorkspace, passScript, passSelfGuard, passInclude, passExclude,
          filterIncludeExclude, hcw, hs, hl, hc]
  | some s =>
    by_cases hd : s ∈ w.scripts <;>
      by_cases hl : ctx.lifecycleEvent = some s <;>
        by_cases hc : w.cwd = cw.cwd <;>
          simp [keepWorkspace, passScript, passSelfGuard, passInclude, passExclude,
            filterIncludeExclude, hcw, hs, hd, hl, hc]

/-- When the current-directory workspace is present, the candidate loop is
the list filter by the conjunction of the four spec-side filters. -/
theorem selectWorkspaces_eq_filter (ctx : SelCtx) (cw : Workspace)
    (hcw : ctx.cwdWorkspace = some cw) :
    ∀ l : List Workspace,
      selectWorkspaces ctx l =
        .ok (l.filter fun w => passScript ctx.scriptName w && (passSelfGuard ctx cw w &&
          (passInclude ctx.includeList w && passExclude ctx.excludeList w)))
  | [] => rfl
  | w :: rest => by
    simp only [selectWorkspaces, keepWorkspace_eq_filters ctx cw hcw w,
      selectWorkspaces_eq_filter ctx cw hcw rest, List.filter_cons]
    cases h : passScript ctx.scriptName w && (passSelfGuard ctx cw w &&
        (passInclude ctx.includeList w && passExclude ctx.excludeList w)) <;>
      simp [Bind.bind, Except.bind, Pure.pure, Except.pure, h]

/-- A workspace whose name the exclude list contains fails filter (d). -/
theorem passExclude_false_of_contains (excludeList : List String) (w : Workspace)
    (h : excludeList.contains w.name = true) : passExclude excludeList w = false := by
  cases excludeList with
  | nil => simp at h
  | cons a l => simp_all [passExclude]

/-- C3: for every root workspace and project, the Candidate Selector's
output is the candidate list `[root, ...descendants]` (the root-first
depth-first walk, without deduplication) filtered in order by the script
filter (a), the self-recursion guard (b), the include whitelist (c) and the
exclude list (d); consequently a workspace named by the exclude list is
never in the output, even when the include list also names it. -/
theorem candidate_selector_filters (ctx : SelCtx) (cw : Workspace)
    (project : Project) (treeFuel : Nat) (root : Workspace)
    (hcw : ctx.cwdWorkspace = some cw) :
    (selectWorkspaces ctx (root :: getWorkspaceChildrenRecursive project treeFuel root) =
      .ok (((((root :: getWorkspaceChildrenRecursive project treeFuel root).filter
            (passScript ctx.scriptName)).filter (passSelfGuard ctx cw)).filter
            (passInclude ctx.includeList)).filter (passExclude ctx.excludeList))) ∧
    (∀ res, selectWorkspaces ctx (root :: getWorkspaceChildrenRecursive project treeFuel root) =
        .ok res → ∀ w : Workspace, ctx.excludeList.contains w.name = true → w ∉ res) ∧
    (∀ res, selectWorkspaces ctx (root :: getWorkspaceChildrenRecursive project treeFuel root) =
        .ok res → ∀ w : Workspace, ctx.includeList.contains w.name = true →
          ctx.excludeList.contains w.name = true → w ∉ res) := by
  have hmain := selectWorkspaces_eq_filter ctx cw hcw
    (root :: getWorkspaceChildrenRecursive project treeFuel root)
  have hchain : ∀ l : List Workspace,
      (((l.filter (passScript ctx.scriptName)).filter (passSelfGuard ctx cw)).filter
        (passInclude ctx.includeList)).filter (passExclude ctx.excludeList) =
      l.filter fun w => passScript ctx.scriptName w && (passSelfGuard ctx cw w &&
        (passInclude ctx.includeList w && passExclude ctx.excludeList w)) := by
    intro l
    simp only [List.filter_filter]
    apply List.filter_congr
    intro a _
    cases passScript ctx.scriptName a <;> cases passSelfGuard ctx cw a <;>
      cases passInclude ctx.includeList a <;> cases passExclude ctx.excludeList a <;> rfl
  have hmem : ∀ res, selectWorkspaces ctx
        (root :: getWorkspaceChildrenRecursive project treeFuel root) = .ok res →
      ∀ w : Workspace, ctx.excludeList.contains w.name = true → w ∉ res := by
    intro res hres w hcont hwmem
    rw [hmain] at hres
    cases hres
    have := (List.mem_filter.mp hwmem).2
    rw [passExclude_false_of_contains ctx.excludeList w hcont] at this
    simp at this
  refine ⟨by rw [hmain, hchain], hmem, fun res hres w _ hcont => hmem res hres w hcont⟩

/-- Selector context of the C3 witness: no implied script, exclude list
naming B, current workspace A. -/
def ctx3 : SelCtx := ⟨none, "build", none, some wsA, ["A", "B"], ["B"]⟩

/-- Witness for `candidate_selector_filters` at a concrete project: B is
named by both the include and the exclude list and is dropped. -/
theorem candidate_selector_filters_witness :
    ctx3.cwdWorkspace = some wsA ∧
    ((selectWorkspaces ctx3 (wsA :: getWorkspaceChildrenRecursive projAB 5 wsA) =
      .ok (((((wsA :: getWorkspaceChildrenRecursive projAB 5 wsA).filter
            (passScript ctx3.scriptName)).filter (passSelfGuard ctx3 wsA)).filter
            (passInclude ctx3.includeList)).filter (passExclude ctx3.excludeList))) ∧
    (∀ res, selectWorkspaces ctx3 (wsA :: getWorkspaceChildrenRecursive projAB 5 wsA) =
        .ok res → ∀ w : Workspace, ctx3.excludeList.contains w.name = true → w ∉ res) ∧
    (∀ res, selectWorkspaces ctx3 (wsA :: getWorkspaceChildrenRecursive projAB 5 wsA) =
        .ok res → ∀ w : Workspace, ctx3.includeList.contains w.name = true →
          ctx3.excludeList.contains w.name = true → w ∉ res)) :=
  ⟨rfl, candidate_selector_filters ctx3 wsA projAB 5 wsA rfl⟩

/-- When the current-directory workspace is absent but the self-recursion
guard's first conjunct holds, the candidate loop raises at the first
candidate that survives the script filter. -/
theorem selectWorkspaces_crash (ctx : SelCtx) (hnone : ctx.cwdWorkspace = none)
    (hmatch : (ctx.lifecycleEvent == some (ctx.scriptName.getD ctx.command)) = true) :
    ∀ l : List Workspace, (∃ w ∈ l, passScript ctx.scriptName w = true) →
      selectWorkspaces ctx l = .error .nullCwdWorkspace
  | [], h => by simp at h
  | w :: rest, h => by
    by_cases hp : passScript ctx.scriptName w = true
    · have hk : keepWorkspace ctx w = .error .nullCwdWorkspace := by
        cases hs : ctx.scriptName with
        | none =>
          rw [hs] at hmatch
          have hm : ctx.lifecycleEvent = some ctx.command := by simpa using hmatch
          simp [keepWorkspace, hs, hnone, hm]
        | some s =>
          rw [hs] at hmatch
          have hm : ctx.lifecycleEvent = some s := by simpa using hmatch
          have hp' : s ∈ w.scripts := by
            rw [hs] at hp
            simpa [passScript] using hp
          simp [keepWorkspace, hs, hnone, hm, hp']
      simp [selectWorkspaces, hk, Bind.bind, Except.bind]
    · obtain ⟨v, hv, hpv⟩ := h
      rcases List.mem_cons.mp hv with rfl | hv'
      · exact absurd hpv hp
      · have hrest := selectWorkspaces_crash ctx hnone hmatch rest ⟨v, hv', hpv⟩
        have hk : keepWorkspace ctx w = .ok false := by
          cases hs : ctx.scriptName with
          | none => simp [passScript, hs] at hp
          | some s =>
            have hp' : s ∉ w.scripts := by
              rw [hs] at hp
              simpa [passScript] using hp
            simp [keepWorkspace, hs, hp']
        simp [selectWorkspaces, hk, hrest, Bind.bind, Except.bind]

/-- Options of the C10 counterexample: `run build` under `--all`, no
workspace declaring `build`. -/
def c10opts : ForeachOpts :=
  ⟨"run", ["build"], ["run"], ["build"], [], [], true, false, 0, false, false, false, false⟩

/-- Counterexample to C10 as stated: with `--all` set, no current-directory
workspace, and the requested script equal to `npm_lifecycle_event`, the run
does NOT raise — every candidate is dropped by the script filter before the
guard is reached, so the action completes normally with exit code 0 and no
error of any kind. -/
theorem selfguard_counterexample :
    foreachAction c10opts projRoot none (some "build") (fun _ => .ok 0) 5 5 =
      .ok ⟨⟨[], [], 0, .completed, []⟩, 0⟩ ∧
    processExitCode (foreachAction c10opts projRoot none (some "build")
      (fun _ => .ok 0) 5 5) = 0 := by
  constructor <;> rfl

/-- C10 amended: additionally assuming some candidate passes the script
filter, the guard is reached with `cwdWorkspace` absent and the action
aborts with the null-dereference error before any task is scheduled. -/
theorem selfguard_crash_amended (opts : ForeachOpts) (project : Project)
    (lifecycleEvent : Option String) (exec : Workspace → Except Unit Int)
    (fuel treeFuel : Nat)
    (hall : opts.all = true) (hcp : opts.commandPath ≠ [])
    (hlif : (lifecycleEvent ==
        some ((scriptNameOf opts.commandPath opts.parsedArgs).getD opts.command)) = true)
    (hreach : ∃ w ∈ project.topLevelWorkspace ::
        getWorkspaceChildrenRecursive project treeFuel project.topLevelWorkspace,
        passScript (scriptNameOf opts.commandPath opts.parsedArgs) w = true) :
    foreachAction opts project none lifecycleEvent exec fuel treeFuel =
      .error .nullCwdWorkspace := by
  have hsel := selectWorkspaces_crash
    ⟨scriptNameOf opts.commandPath opts.parsedArgs, opts.command, lifecycleEvent, none,
      opts.includeList, opts.excludeList⟩ rfl hlif
    (project.topLevelWorkspace ::
      getWorkspaceChildrenRecursive project treeFuel project.topLevelWorkspace) hreach
  simp [foreachAction, hall, hsel, List.isEmpty_iff, hcp]

/-- Options of the C10 amended witness: plain command `build` (no implied
script) under `--all`. -/
def c10bopts : ForeachOpts :=
  ⟨"build", [], ["build"], [], [], [], true, false, 0, false, false, false, false⟩

/-- Witness for `selfguard_crash_amended`: with no implied script every
candidate passes the script filter, and the run aborts with the
null-dereference error. -/
theorem selfguard_crash_amended_witness :
    c10bopts.all = true ∧
    foreachAction c10bopts projRoot none (some "build") (fun _ => .ok 0) 5 5 =
      .error .nullCwdWorkspace :=
  ⟨rfl, selfguard_crash_amended c10bopts projRoot (some "build") (fun _ => .ok 0) 5 5
    rfl (by decide) (by decide) ⟨wsRoot, by decide, by decide⟩⟩

/-! Scan lemmas. -/

/-- The break-at-first-blocked descriptor loop computes the conjunction over
all descriptors. -/
theorem depsRunnable_eq_all (project : Project) (pending : PendingMap) :
    ∀ ds : List Descriptor, depsRunnable project pending ds =
      ds.all fun d => !(project.findWorkspacesByDescriptor d).any
        (fun w2 => mapHas pending w2.locatorHash)
  | [] => rfl
  | d :: ds => by
    simp only [depsRunnable, List.all_cons, depsRunnable_eq_all project pending ds]
    cases h : (project.findWorkspacesByDescriptor d).any
        (fun w2 => mapHas pending w2.locatorHash) <;> simp [h]

/-- Unfolding equation of the scan's cons case, with the `let` bindings
inlined. -/
theorem scanEntries_cons (cfg : SchedCfg) (project : Project) (pending : PendingMap)
    (x : Nat × Workspace) (rest : List (Nat × Workspace)) (processing : List Nat) :
    scanEntries cfg project pending (x :: rest) processing =
      if processing.contains x.2.descriptorHash then
        scanEntries cfg project pending rest processing
      else if isRunnable cfg project pending x.2 then
        (if cfg.parallel then
          (x :: (scanEntries cfg project pending rest
              (setAdd processing x.2.descriptorHash)).1,
            (scanEntries cfg project pending rest
              (setAdd processing x.2.descriptorHash)).2)
        else ([x], setAdd processing x.2.descriptorHash))
      else scanEntries cfg project pending rest processing := rfl

/-- Every dispatched entry passed the runnability check. -/
theorem mem_scan_runnable (cfg : SchedCfg) (project : Project) (pending : PendingMap) :
    ∀ (l : List (Nat × Workspace)) (processing : List Nat) (e : Nat × Workspace),
      e ∈ (scanEntries cfg project pending l processing).1 →
      isRunnable cfg project pending e.2 = true
  | [], _, _, h => by simp [scanEntries] at h
  | x :: rest, processing, e, h => by
    rw [scanEntries_cons] at h
    by_cases h1 : processing.contains x.2.descriptorHash = true
    · rw [if_pos h1] at h
      exact mem_scan_runnable cfg project pending rest processing e h
    · rw [if_neg h1] at h
      by_cases h2 : isRunnable cfg project pending x.2 = true
      · rw [if_pos h2] at h
        by_cases hpar : cfg.parallel = true
        · rw [if_pos hpar] at h
          rcases List.mem_cons.mp h with rfl | h'
          · exact h2
          · exact mem_scan_runnable cfg project pending rest _ e h'
        · rw [if_neg hpar] at h
          simp only [List.mem_singleton] at h
          rw [h]
          exact h2
      · rw [if_neg h2] at h
        exact mem_scan_runnable cfg project pending rest processing e h

/-- The dispatched entries form a sublist of the scanned entries. -/
theorem scan_sublist (cfg : SchedCfg) (project : Project) (pending : PendingMap) :
    ∀ (l : List (Nat × Workspace)) (processing : List Nat),
      (scanEntries cfg project pending l processing).1.Sublist l
  | [], _ => by simp [scanEntries]
  | x :: rest, processing => by
    rw [scanEntries_cons]
    by_cases h1 : processing.contains x.2.descriptorHash = true
    · rw [if_pos h1]
      exact (scan_sublist cfg project pending rest processing).cons x
    · rw [if_neg h1]
      by_cases h2 : isRunnable cfg project pending x.2 = true
      · rw [if_pos h2]
        by_cases hpar : cfg.parallel = true
        · rw [if_pos hpar]
          exact (scan_sublist cfg project pending rest _).cons₂ x
        · rw [if_neg hpar]
          exact (List.nil_sublist rest).cons₂ x
      · rw [if_neg h2]
        exact (scan_sublist cfg project pending rest processing).cons x

/-- `setAdd` makes its argument a member. -/
theorem setAdd_contains_self (s : List Nat) (d : Nat) : (setAdd s d).contains d = true := by
  by_cases h : d ∈ s <;> simp [setAdd, h]

/-- `setAdd` keeps existing members. -/
theorem setAdd_mono (s : List Nat) (d x : Nat) (h : s.contains x = true) :
    (setAdd s d).contains x = true := by
  have hx : x ∈ s := by simpa using h
  by_cases hd : d ∈ s <;> simp [setAdd, hd, hx]

/-- The scan never removes a member of the processing set. -/
theorem scan_processing_mono (cfg : SchedCfg) (project : Project) (pending : PendingMap) :
    ∀ (l : List (Nat × Workspace)) (processing : List Nat) (x : Nat),
      processing.contains x = true →
      (scanEntries cfg project pending l processing).2.contains x = true
  | [], _, _, h => h
  | e :: rest, processing, x, h => by
    rw [scanEntries_cons]
    by_cases h1 : processing.contains e.2.descriptorHash = true
    · rw [if_pos h1]
      exact scan_processing_mono cfg project pending rest processing x h
    · rw [if_neg h1]
      by_cases h2 : isRunnable cfg project pending e.2 = true
      · rw [if_pos h2]
        by_cases hpar : cfg.parallel = true
        · rw [if_pos hpar]
          exact scan_processing_mono cfg project pending rest _ x (setAdd_mono _ _ _ h)
        · rw [if_neg hpar]
          exact setAdd_mono _ _ _ h
      · rw [if_neg h2]
        exact scan_processing_mono cfg project pending rest processing x h

/-- Every dispatched entry's descriptor hash is in the processing set the
scan returns. -/
theorem mem_scan_processing (cfg : SchedCfg) (project : Project) (pending : PendingMap) :
    ∀ (l : List (Nat × Workspace)) (processing : List Nat) (e : Nat × Workspace),
      e ∈ (scanEntries cfg project pending l processing).1 →
      (scanEntries cfg project pending l processing).2.contains e.2.descriptorHash = true
  | [], _, _, h => by simp [scanEntries] at h
  | x :: rest, processing, e, h => by
    rw [scanEntries_cons] at h ⊢
    by_cases h1 : processing.contains x.2.descriptorHash = true
    · rw [if_pos h1] at h ⊢
      exact mem_scan_processing cfg project pending rest processing e h
    · rw [if_neg h1] at h ⊢
      by_cases h2 : isRunnable cfg project pending x.2 = true
      · rw [if_pos h2] at h ⊢
        by_cases hpar : cfg.parallel = true
        · rw [if_pos hpar] at h ⊢
          rcases List.mem_cons.mp h with rfl | h'
          · exact scan_processing_mono cfg project pending rest _ _
              (setAdd_contains_self _ _)
          · exact mem_scan_processing cfg project pending rest _ e h'
        · rw [if_neg hpar] at h ⊢
          simp only [List.mem_singleton] at h
          rw [h]
          exact setAdd_contains_self _ _
      · rw [if_neg h2] at h ⊢
        exact mem_scan_processing cfg project pending rest processing e h

/-- An entry none of whose keys are erased survives the per-task deletions
of a round. -/
theorem mem_foldl_eraseKey :
    ∀ (disp : List (Nat × Workspace)) (pending : PendingMap) (e : Nat × Workspace),
      e ∈ pending → (∀ d ∈ disp, d.1 ≠ e.1) →
      e ∈ disp.foldl (fun m d => eraseKey m d.1) pending
  | [], _, _, he, _ => he
  | d :: disp, pending, e, he, hne => by
    rw [List.foldl_cons]
    refine mem_foldl_eraseKey disp _ e ?_ fun x hx => hne x (List.mem_cons_of_mem d hx)
    exact List.mem_filter.mpr ⟨he, by simp [(hne d (List.mem_cons_self d disp)).symm]⟩

/-- Two entries of a key-nodup pending map with the same key coincide. -/
theorem eq_of_mem_same_key (pending : PendingMap)
    (hkeys : (pending.map Prod.fst).Nodup) {a b : Nat × Workspace}
    (ha : a ∈ pending) (hb : b ∈ pending) (hk : a.1 = b.1) : a = b :=
  List.inj_on_of_nodup_map hkeys ha hb hk

/-- C1: in a topological mode, a round dispatches an entry only if, for
every descriptor in the relevant dependency set, none of the workspaces the
resolver returns is still in the pending map — and a dispatched entry's
descriptor hash was added to the processing set; conversely an entry
blocked by some still-pending resolved workspace is not dispatched this
round and survives the round's deletions, i.e. remains pending. -/
theorem topological_eligibility (cfg : SchedCfg) (project : Project)
    (pending : PendingMap) (processing : List Nat)
    (htopo : (cfg.topological || cfg.topologicalDev) = true)
    (hkeys : (pending.map Prod.fst).Nodup) :
    (∀ e ∈ (scanRound cfg project pending processing).1,
        ∀ d ∈ relevantDeps cfg.topologicalDev e.2,
          ∀ w2 ∈ project.findWorkspacesByDescriptor d,
            mapHas pending w2.locatorHash = false) ∧
    (∀ e ∈ (scanRound cfg project pending processing).1,
        (scanRound cfg project pending processing).2.contains e.2.descriptorHash = true) ∧
    (∀ e ∈ pending,
        (∃ d ∈ relevantDeps cfg.topologicalDev e.2,
            ∃ w2 ∈ project.findWorkspacesByDescriptor d,
              mapHas pending w2.locatorHash = true) →
          e ∉ (scanRound cfg project pending processing).1 ∧
          e ∈ (scanRound cfg project pending processing).1.foldl
            (fun m d => eraseKey m d.1) pending) := by
  have hrun : ∀ e ∈ (scanRound cfg project pending processing).1,
      depsRunnable project pending (relevantDeps cfg.topologicalDev e.2) = true := by
    intro e he
    have := mem_scan_runnable cfg project pending pending processing e he
    rwa [isRunnable, if_pos htopo] at this
  refine ⟨?_, fun e he => mem_scan_processing cfg project pending pending processing e he, ?_⟩
  · intro e he d hd w2 hw2
    have := hrun e he
    rw [depsRunnable_eq_all] at this
    have hall := (List.all_eq_true.mp this) d hd
    simp only [Bool.not_eq_true', List.any_eq_false] at hall
    exact Bool.eq_false_iff.mpr (hall w2 hw2)
  · intro e he ⟨d, hd, w2, hw2, hpend⟩
    have hnotdisp : e ∉ (scanRound cfg project pending processing).1 := by
      intro hmem
      have := hrun e hmem
      rw [depsRunnable_eq_all] at this
      have hall := (List.all_eq_true.mp this) d hd
      simp only [Bool.not_eq_true', List.any_eq_false] at hall
      exact hall w2 hw2 hpend
    refine ⟨hnotdisp, mem_foldl_eraseKey _ pending e he fun x hx => ?_⟩
    intro hxk
    exact hnotdisp (eq_of_mem_same_key pending hkeys
      ((scan_sublist cfg project pending pending processing).subset hx) he hxk ▸ hx)

/-- Pending map of the A/B fixture. -/
def pendAB : PendingMap := [(1, wsA), (2, wsB)]

/-- Witness for `topological_eligibility`: under topological mode, A (no
dependencies) is dispatched with its descriptor hash in the processing
set, while B (whose dependency A is still pending) is skipped and remains
pending. -/
theorem topological_eligibility_witness :
    (cfgT.topological || cfgT.topologicalDev) = true ∧
    ((∀ e ∈ (scanRound cfgT projAB pendAB []).1,
        ∀ d ∈ relevantDeps cfgT.topologicalDev e.2,
          ∀ w2 ∈ projAB.findWorkspacesByDescriptor d,
            mapHas pendAB w2.locatorHash = false) ∧
    (∀ e ∈ (scanRound cfgT projAB pendAB []).1,
        (scanRound cfgT projAB pendAB []).2.contains e.2.descriptorHash = true) ∧
    (∀ e ∈ pendAB,
        (∃ d ∈ relevantDeps cfgT.topologicalDev e.2,
            ∃ w2 ∈ projAB.findWorkspacesByDescriptor d,
              mapHas pendAB w2.locatorHash = true) →
          e ∉ (scanRound cfgT projAB pendAB []).1 ∧
          e ∈ (scanRound cfgT projAB pendAB []).1.foldl
            (fun m d => eraseKey m d.1) pendAB)) :=
  ⟨rfl, topological_eligibility cfgT projAB pendAB [] rfl (by decide)⟩

/-- Without `parallel`, the scan is the search for the first eligible
entry. -/
theorem scan_sequential_eq_find (cfg : SchedCfg) (project : Project)
    (pending : PendingMap) (hpar : cfg.parallel = false) :
    ∀ (l : List (Nat × Workspace)) (processing : List Nat),
      (scanEntries cfg project pending l processing).1 =
        (l.find? fun e => !(processing.contains e.2.descriptorHash) &&
          isRunnable cfg project pending e.2).toList
  | [], _ => rfl
  | x :: rest, processing => by
    rw [scanEntries_cons]
    by_cases h1 : processing.contains x.2.descriptorHash = true
    · have h1' : x.2.descriptorHash ∈ processing := by simpa using h1
      rw [if_pos h1, List.find?_cons_of_neg _ (by simp [h1'])]
      exact scan_sequential_eq_find cfg project pending hpar rest processing
    · rw [if_neg h1]
      by_cases h2 : isRunnable cfg project pending x.2 = true
      · rw [if_pos h2, if_neg (by simp [hpar] : ¬cfg.parallel = true),
          List.find?_cons_of_pos _ (by simp [h2]; simpa using h1)]
        rfl
      · rw [if_neg h2, List.find?_cons_of_neg _ (by simp [h2])]
        exact scan_sequential_eq_find cfg project pending hpar rest processing

/-- C6: with parallel mode off, a round's scan dispatches exactly the first
eligible pending entry (nothing when none is eligible) — in particular at
most one task — and the scan stops there: the dispatched list is the
`find?` of the first entry that is neither already processing nor blocked. -/
theorem sequential_single_dispatch (cfg : SchedCfg) (project : Project)
    (pending : PendingMap) (processing : List Nat)
    (hpar : cfg.parallel = false) :
    (scanRound cfg project pending processing).1 =
      (pending.find? fun e => !(processing.contains e.2.descriptorHash) &&
        isRunnable cfg project pending e.2).toList ∧
    (scanRound cfg project pending processing).1.length ≤ 1 := by
  have h := scan_sequential_eq_find cfg project pending hpar pending processing
  refine ⟨h, ?_⟩
  rw [scanRound, h]
  cases pending.find? fun e => !(processing.contains e.2.descriptorHash) &&
      isRunnable cfg project pending e.2 <;> simp

/-- Witness for `sequential_single_dispatch`: the sequential topological
round over the A/B fixture dispatches exactly A. -/
theorem sequential_single_dispatch_witness :
    cfgT.parallel = false ∧
    ((scanRound cfgT projAB pendAB []).1 =
      (pendAB.find? fun e => !(([] : List Nat).contains e.2.descriptorHash) &&
        isRunnable cfgT projAB pendAB e.2).toList ∧
    (scanRound cfgT projAB pendAB []).1.length ≤ 1) :=
  ⟨rfl, sequential_single_dispatch cfgT projAB pendAB [] rfl⟩

/-- C2: whenever a round's scan dispatches nothing while the pending map is
non-empty (and no error was reported before the round), the loop reports
the fatal cyclic-dependency error whose payload names every still-pending
workspace, executes nothing, scans no further round, and ends immediately
with the cycle outcome; the report's exit code is then non-zero. -/
theorem cycle_detection_halts (cfg : SchedCfg) (project : Project)
    (exec : Workspace → Except Unit Int) (fuel : Nat) (pending : PendingMap)
    (processing : List Nat)
    (hpend : pending ≠ [])
    (hscan : (scanRound cfg project pending processing).1 = []) :
    runLoop cfg project exec (fuel + 1) pending processing [] =
      ⟨[], [RunError.cyclic (pending.map fun e => prettyLocator e.2)
          (cycleMessage (pending.map fun e => prettyLocator e.2))],
        1, .cycleDetected, pending⟩ ∧
    reportExitCode (runLoop cfg project exec (fuel + 1) pending processing []).errors ≠ 0 := by
  have hmain : runLoop cfg project exec (fuel + 1) pending processing [] =
      ⟨[], [RunError.cyclic (pending.map fun e => prettyLocator e.2)
          (cycleMessage (pending.map fun e => prettyLocator e.2))],
        1, .cycleDetected, pending⟩ := by
    rw [runLoop]
    simp [List.isEmpty_iff, hpend, hscan]
  refine ⟨hmain, ?_⟩
  rw [hmain]
  simp [reportExitCode]

/-- Pending map of the X/Y cycle fixture. -/
def pendXY : PendingMap := [(1, wsX), (2, wsY)]

/-- Witness for `cycle_detection_halts`: the mutual X/Y cycle under
topological mode — round 1 dispatches nothing, the error names both X and
Y, nothing is ever executed, and the exit code is non-zero. -/
theorem cycle_detection_halts_witness :
    pendXY ≠ [] ∧
    (scanRound cfgT projXY pendXY []).1 = [] ∧
    (runLoop cfgT projXY (fun _ => .ok 0) 3 pendXY [] [] =
      ⟨[], [RunError.cyclic (pendXY.map fun e => prettyLocator e.2)
          (cycleMessage (pendXY.map fun e => prettyLocator e.2))],
        1, .cycleDetected, pendXY⟩ ∧
    reportExitCode (runLoop cfgT projXY (fun _ => .ok 0) 3 pendXY [] []).errors ≠ 0) :=
  ⟨by decide, by decide,
    cycle_detection_halts cfgT projXY (fun _ => .ok 0) 2 pendXY [] (by decide) (by decide)⟩

/-- Options of the partial-failure scenario: sequential topological run of
command `build`. -/
def c5opts : ForeachOpts :=
  ⟨"build", [], ["build"], [], [], [], false, false, 0, false, true, false, false⟩

/-- Executor of the partial-failure scenario: A's task exits 1, everything
else exits 0. -/
def c5exec : Workspace → Except Unit Int :=
  fun w => if w == wsA then .ok 1 else .ok 0

/-- C5: in the A/B scope under topological mode with A exiting 1 — round 1
dispatches and awaits exactly A, the topological propagation error is
reported, the next iteration's hasErrors check stops the loop before any
scan (only one round is ever scanned), B's task never runs (B is still in
the pending map at exit), and the final exit code is non-zero. -/
theorem partial_failure_scenario :
    foreachAction c5opts projAB (some wsA) none c5exec 5 5 =
      .ok ⟨⟨[(wsA, 1)], [RunError.topoFailed], 1, .completed, [(2, wsB)]⟩, 1⟩ ∧
    wsB ∉ ([(wsA, 1)] : List (Workspace × Int)).map Prod.fst ∧
    processExitCode (foreachAction c5opts projAB (some wsA) none c5exec 5 5) ≠ 0 := by
  refine ⟨rfl, by decide, by decide⟩

/-! Round-loop lemmas. -/

/-- If the executor never raises, no round's await rejects. -/
theorem runDispatched_no_raise (exec : Workspace → Except Unit Int)
    (hexec : ∀ w, exec w ≠ .error ()) :
    ∀ l : List (Nat × Workspace), (runDispatched exec l).2 = false
  | [] => rfl
  | e :: rest => by
    cases hx : exec e.2 with
    | ok c => simp [runDispatched, hx, runDispatched_no_raise exec hexec rest]
    | error u => cases u; exact absurd hx (hexec e.2)

/-- Unfolding equation of the loop's successor case, with the `let`
bindings inlined. -/
theorem runLoop_succ (cfg : SchedCfg) (project : Project)
    (exec : Workspace → Except Unit Int) (fuel : Nat) (pending : PendingMap)
    (processing : List Nat) (errs : List RunError) :
    runLoop cfg project exec (fuel + 1) pending processing errs =
      if pending.isEmpty then ⟨[], errs, 0, .completed, pending⟩
      else if !errs.isEmpty then ⟨[], errs, 0, .completed, pending⟩
      else if (scanRound cfg project pending processing).1.isEmpty then
        ⟨[], errs ++ [.cyclic (pending.map fun e => prettyLocator e.2)
            (cycleMessage (pending.map fun e => prettyLocator e.2))],
          1, .cycleDetected, pending⟩
      else if (runDispatched exec (scanRound cfg project pending processing).1).2 then
        ⟨(runDispatched exec (scanRound cfg project pending processing).1).1,
          errs, 1, .raised, pending⟩
      else
        ⟨(runDispatched exec (scanRound cfg project pending processing).1).1 ++
            (runLoop cfg project exec fuel
              ((scanRound cfg project pending processing).1.foldl
                (fun m e => eraseKey m e.1) pending)
              ((scanRound cfg project pending processing).1.foldl
                (fun s e => s.erase e.2.descriptorHash)
                (scanRound cfg project pending processing).2)
              (if (cfg.topological || cfg.topologicalDev) &&
                  (runDispatched exec (scanRound cfg project pending processing).1).1.any
                    (fun p => !(p.2 == 0)) then errs ++ [.topoFailed] else errs)).executed,
          (runLoop cfg project exec fuel
            ((scanRound cfg project pending processing).1.foldl
              (fun m e => eraseKey m e.1) pending)
            ((scanRound cfg project pending processing).1.foldl
              (fun s e => s.erase e.2.descriptorHash)
              (scanRound cfg project pending processing).2)
            (if (cfg.topological || cfg.topologicalDev) &&
                (runDispatched exec (scanRound cfg project pending processing).1).1.any
                  (fun p => !(p.2 == 0)) then errs ++ [.topoFailed] else errs)).errors,
          1 + (runLoop cfg project exec fuel
            ((scanRound cfg project pending processing).1.foldl
              (fun m e => eraseKey m e.1) pending)
            ((scanRound cfg project pending processing).1.foldl
              (fun s e => s.erase e.2.descriptorHash)
              (scanRound cfg project pending processing).2)
            (if (cfg.topological || cfg.topologicalDev) &&
                (runDispatched exec (scanRound cfg project pending processing).1).1.any
                  (fun p => !(p.2 == 0)) then errs ++ [.topoFailed] else errs)).roundsScanned,
          (runLoop cfg project exec fuel
            ((scanRound cfg project pending processing).1.foldl
              (fun m e => eraseKey m e.1) pending)
            ((scanRound cfg project pending processing).1.foldl
              (fun s e => s.erase e.2.descriptorHash)
              (scanRound cfg project pending processing).2)
            (if (cfg.topological || cfg.topologicalDev) &&
                (runDispatched exec (scanRound cfg project pending processing).1).1.any
                  (fun p => !(p.2 == 0)) then errs ++ [.topoFailed] else errs)).outcome,
          (runLoop cfg project exec fuel
            ((scanRound cfg project pending processing).1.foldl
              (fun m e => eraseKey m e.1) pending)
            ((scanRound cfg project pending processing).1.foldl
              (fun s e => s.erase e.2.descriptorHash)
              (scanRound cfg project pending processing).2)
            (if (cfg.topological || cfg.topologicalDev) &&
                (runDispatched exec (scanRound cfg project pending processing).1).1.any
                  (fun p => !(p.2 == 0)) then errs ++ [.topoFailed] else errs)).pendingLeft⟩ :=
  rfl

/-- If the executor never raises, the loop never ends with the `raised`
outcome. -/
theorem runLoop_no_raise (cfg : SchedCfg) (project : Project)
    (exec : Workspace → Except Unit Int) (hexec : ∀ w, exec w ≠ .error ()) :
    ∀ (fuel : Nat) (pending : PendingMap) (processing : List Nat) (errs : List RunError),
      (runLoop cfg project exec fuel pending processing errs).outcome ≠ .raised
  | 0, pending, processing, errs => by simp [runLoop]
  | fuel + 1, pending, processing, errs => by
    rw [runLoop_succ]
    by_cases hp : pending.isEmpty = true
    · simp [hp]
    · rw [if_neg hp]
      by_cases he : (!errs.isEmpty) = true
      · simp [he]
      · rw [if_neg he]
        by_cases hs : (scanRound cfg project pending processing).1.isEmpty = true
        · simp [hs]
        · rw [if_neg hs,
            if_neg (by simp [runDispatched_no_raise exec hexec])]
          exact runLoop_no_raise cfg project exec hexec fuel _ _ _

/-- Error-list decomposition of the loop, assuming the executor never
raises: the report's final error list extends the initial one by `er`, the
topological propagation error is in `er` exactly when a topological mode is
on and some executed task's exit code is non-zero, and a cyclic error is in
`er` exactly when the loop ended with the cycle outcome. -/
theorem runLoop_errors_decomp (cfg : SchedCfg) (project : Project)
    (exec : Workspace → Except Unit Int) (hexec : ∀ w, exec w ≠ .error ()) :
    ∀ (fuel : Nat) (pending : PendingMap) (processing : List Nat) (errs : List RunError),
      ∃ er : List RunError,
        (runLoop cfg project exec fuel pending processing errs).errors = errs ++ er ∧
        (RunError.topoFailed ∈ er ↔ ((cfg.topological || cfg.topologicalDev) = true ∧
          ∃ p ∈ (runLoop cfg project exec fuel pending processing errs).executed,
            p.2 ≠ 0)) ∧
        ((∃ ns m, RunError.cyclic ns m ∈ er) ↔
          (runLoop cfg project exec fuel pending processing errs).outcome = .cycleDetected)
  | 0, pending, processing, errs =>
    ⟨[], by simp [runLoop], by simp [runLoop], by simp [runLoop]⟩
  | fuel + 1, pending, processing, errs => by
    rw [runLoop_succ]
    by_cases hp : pending.isEmpty = true
    · rw [if_pos hp]
      exact ⟨[], by simp, by simp, by simp⟩
    · rw [if_neg hp]
      by_cases he : (!errs.isEmpty) = true
      · rw [if_pos he]
        exact ⟨[], by simp, by simp, by simp⟩
      · rw [if_neg he]
        by_cases hs : (scanRound cfg project pending processing).1.isEmpty = true
        · rw [if_pos hs]
          refine ⟨[RunError.cyclic (pending.map fun e => prettyLocator e.2)
              (cycleMessage (pending.map fun e => prettyLocator e.2))], by simp, by simp, ?_⟩
          refine iff_of_true ?_ rfl
          exact ⟨pending.map fun e => prettyLocator e.2,
            cycleMessage (pending.map fun e => prettyLocator e.2), by simp⟩
        · rw [if_neg hs, if_neg (by simp [runDispatched_no_raise exec hexec])]
          obtain ⟨er, h1, h2, h3⟩ := runLoop_errors_decomp cfg project exec hexec fuel
            ((scanRound cfg project pending processing).1.foldl
              (fun m e => eraseKey m e.1) pending)
            ((scanRound cfg project pending processing).1.foldl
              (fun s e => s.erase e.2.descriptorHash)
              (scanRound cfg project pending processing).2)
            (if (cfg.topological || cfg.topologicalDev) &&
                (runDispatched exec (scanRound cfg project pending processing).1).1.any
                  (fun p => !(p.2 == 0)) then errs ++ [.topoFailed] else errs)
          by_cases hc : ((cfg.topological || cfg.topologicalDev) &&
              (runDispatched exec (scanRound cfg project pending processing).1).1.any
                (fun p => !(p.2 == 0))) = true
          · rw [if_pos hc] at h1 h2 h3
            refine ⟨RunError.topoFailed :: er, ?_, ?_, ?_⟩
            · dsimp only
              rw [if_pos hc, h1]
              simp
            · dsimp only
              rw [if_pos hc]
              constructor
              · intro _
                obtain ⟨htopo, hany⟩ := Bool.and_eq_true_iff.mp hc
                obtain ⟨p, hpmem, hpne⟩ := List.any_eq_true.mp hany
                exact ⟨htopo, p, List.mem_append_left _ hpmem, by simpa using hpne⟩
              · intro _
                exact List.mem_cons_self _ _
            · dsimp only
              rw [if_pos hc]
              constructor
              · rintro ⟨ns, m, hm⟩
                rcases List.mem_cons.mp hm with hcyc | hcyc
                · simp at hcyc
                · exact h3.mp ⟨ns, m, hcyc⟩
              · intro hout
                obtain ⟨ns, m, hm⟩ := h3.mpr hout
                exact ⟨ns, m, List.mem_cons_of_mem _ hm⟩
          · rw [if_neg hc] at h1 h2 h3
            refine ⟨er, ?_, ?_, ?_⟩
            · dsimp only
              rw [if_neg hc]
              exact h1
            · dsimp only
              rw [if_neg hc, h2]
              constructor
              · rintro ⟨htopo, p, hpmem, hpne⟩
                exact ⟨htopo, p, List.mem_append_right _ hpmem, hpne⟩
              · rintro ⟨htopo, p, hpmem, hpne⟩
                rcases List.mem_append.mp hpmem with hleft | hright
                · exfalso
                  apply hc
                  rw [Bool.and_eq_true_iff]
                  refine ⟨htopo, List.any_eq_true.mpr ⟨p, hleft, ?_⟩⟩
                  simpa using hpne
                · exact ⟨htopo, p, hright, hpne⟩
            · dsimp only
              rw [if_neg hc]
              exact h3

/-- When the current workspace is present or the lifecycle guard cannot
fire, one candidate iteration never raises. -/
theorem keepWorkspace_ok (ctx : SelCtx)
    (hguard : ctx.cwdWorkspace = none →
      (ctx.lifecycleEvent == some (ctx.scriptName.getD ctx.command)) = false)
    (w : Workspace) : ∃ b, keepWorkspace ctx w = .ok b := by
  rw [keepWorkspace]
  by_cases ha : (match ctx.scriptName with
      | some s => !(w.scripts.contains s)
      | none => false) = true
  · rw [if_pos ha]
    exact ⟨false, rfl⟩
  · rw [if_neg ha]
    by_cases hl : (ctx.lifecycleEvent == some (ctx.scriptName.getD ctx.command)) = true
    · rw [if_pos hl]
      cases hcw : ctx.cwdWorkspace with
      | none => simp [hguard hcw] at hl
      | some cw =>
        dsimp only
        by_cases hc : (w.cwd == cw.cwd) = true
        · rw [if_pos hc]
          exact ⟨false, rfl⟩
        · rw [if_neg hc]
          exact ⟨filterIncludeExclude ctx w, rfl⟩
    · rw [if_neg hl]
      exact ⟨filterIncludeExclude ctx w, rfl⟩

/-- When the current workspace is present or the lifecycle guard cannot
fire, the candidate loop never raises. -/
theorem selectWorkspaces_ok (ctx : SelCtx)
    (hguard : ctx.cwdWorkspace = none →
      (ctx.lifecycleEvent == some (ctx.scriptName.getD ctx.command)) = false) :
    ∀ l : List Workspace, ∃ res, selectWorkspaces ctx l = .ok res
  | [] => ⟨[], rfl⟩
  | w :: rest => by
    obtain ⟨b, hb⟩ := keepWorkspace_ok ctx hguard w
    obtain ⟨res, hres⟩ := selectWorkspaces_ok ctx hguard rest
    exact ⟨if b then w :: res else res,
      by simp [selectWorkspaces, hb, hres, Bind.bind, Except.bind, Pure.pure, Except.pure]⟩

/-- Shape of the whole action when the executor never raises and the
self-recursion guard cannot dereference an absent workspace: either one of
the two pre-scheduling fatal errors is thrown, or the action returns the
scheduler result of some selected workspace list together with the report's
exit code. -/
theorem foreachAction_shape (opts : ForeachOpts) (project : Project)
    (cwdWorkspace : Option Workspace) (lifecycleEvent : Option String)
    (exec : Workspace → Except Unit Int) (fuel treeFuel : Nat)
    (hexec : ∀ w, exec w ≠ .error ())
    (hguard : cwdWorkspace = none →
      (lifecycleEvent == some ((scriptNameOf opts.commandPath opts.parsedArgs).getD
        opts.command)) = false) :
    ((!opts.all && cwdWorkspace.isNone) = true ∧
      foreachAction opts project cwdWorkspace lifecycleEvent exec fuel treeFuel =
        .error .workspaceRequired) ∨
    ((!opts.all && cwdWorkspace.isNone) = false ∧ opts.commandPath.isEmpty = true ∧
      foreachAction opts project cwdWorkspace lifecycleEvent exec fuel treeFuel =
        .error .usageInvalidSubcommand) ∨
    (∃ ws : List Workspace,
      foreachAction opts project cwdWorkspace lifecycleEvent exec fuel treeFuel =
        .ok ⟨runLoop ⟨opts.parallel, opts.topological, opts.topologicalDev⟩ project exec
            fuel (seedPending ws) [] [],
          reportExitCode (runLoop ⟨opts.parallel, opts.topological, opts.topologicalDev⟩
            project exec fuel (seedPending ws) [] []).errors⟩) := by
  by_cases h1 : (!opts.all && cwdWorkspace.isNone) = true
  · exact Or.inl ⟨h1, by rw [foreachAction, if_pos h1]⟩
  · by_cases h2 : opts.commandPath.isEmpty = true
    · exact Or.inr (Or.inl ⟨Bool.eq_false_iff.mpr h1, h2,
        by rw [foreachAction, if_neg h1, if_pos h2]⟩)
    · refine Or.inr (Or.inr ?_)
      rcases hroot : (if opts.all then some project.topLevelWorkspace else cwdWorkspace)
        with _ | root
      · exfalso
        by_cases hall : opts.all = true
        · rw [if_pos hall] at hroot
          cases hroot
        · have hall' : opts.all = false := Bool.eq_false_iff.mpr hall
          rw [if_neg (by simp [hall'])] at hroot
          apply h1
          rw [hall', hroot]
          rfl
      · obtain ⟨ws, hws⟩ := selectWorkspaces_ok
          ⟨scriptNameOf opts.commandPath opts.parsedArgs, opts.command, lifecycleEvent,
            cwdWorkspace, opts.includeList, opts.excludeList⟩
          (fun h => hguard h)
          (root :: getWorkspaceChildrenRecursive project treeFuel root)
        refine ⟨ws, ?_⟩
        rw [foreachAction, if_neg h1, if_neg h2, hroot]
        dsimp only
        rw [hws]
        dsimp only
        have hnr := runLoop_no_raise ⟨opts.parallel, opts.topological, opts.topologicalDev⟩
          project exec hexec fuel (seedPending ws) [] []
        rw [if_neg (by simpa using hnr)]

/-- C4: under a never-raising executor and a non-firing null-dereference
guard, the process exit code is the report's aggregated exit code: a thrown
error is one of the two pre-scheduling fatal errors (missing workspace
context, invalid subcommand) and exits non-zero; a normal return exits with
the report's code, which is non-zero exactly when the cyclic-dependency
error was reported or a topological mode is on and some executed task
returned a non-zero exit code.  In particular, outside the topological
modes a non-zero task exit code never makes the final exit code non-zero. -/
theorem exit_code_characterization (opts : ForeachOpts) (project : Project)
    (cwdWorkspace : Option Workspace) (lifecycleEvent : Option String)
    (exec : Workspace → Except Unit Int) (fuel treeFuel : Nat)
    (hexec : ∀ w, exec w ≠ .error ())
    (hguard : cwdWorkspace = none →
      (lifecycleEvent == some ((scriptNameOf opts.commandPath opts.parsedArgs).getD
        opts.command)) = false) :
    (∀ e, foreachAction opts project cwdWorkspace lifecycleEvent exec fuel treeFuel =
        .error e →
      (e = .workspaceRequired ∨ e = .usageInvalidSubcommand) ∧
      processExitCode (foreachAction opts project cwdWorkspace lifecycleEvent exec
        fuel treeFuel) ≠ 0) ∧
    (∀ res, foreachAction opts project cwdWorkspace lifecycleEvent exec fuel treeFuel =
        .ok res →
      processExitCode (foreachAction opts project cwdWorkspace lifecycleEvent exec
        fuel treeFuel) = res.exitCode ∧
      res.exitCode = reportExitCode res.runRes.errors ∧
      (res.exitCode ≠ 0 ↔
        ((∃ ns m, RunError.cyclic ns m ∈ res.runRes.errors) ∨
          ((opts.topological || opts.topologicalDev) = true ∧
            ∃ p ∈ res.runRes.executed, p.2 ≠ 0)))) := by
  rcases foreachAction_shape opts project cwdWorkspace lifecycleEvent exec fuel treeFuel
    hexec hguard with ⟨h1, hact⟩ | ⟨h1, h2, hact⟩ | ⟨ws, hact⟩
  · constructor
    · intro e he
      rw [hact] at he
      cases he
      exact ⟨Or.inl rfl, by rw [hact]; simp [processExitCode]⟩
    · intro res hres
      rw [hact] at hres
      simp at hres
  · constructor
    · intro e he
      rw [hact] at he
      cases he
      exact ⟨Or.inr rfl, by rw [hact]; simp [processExitCode]⟩
    · intro res hres
      rw [hact] at hres
      simp at hres
  · constructor
    · intro e he
      rw [hact] at he
      simp at he
    · intro res hres
      rw [hact] at hres
      cases hres
      obtain ⟨er, hh1, hh2, hh3⟩ := runLoop_errors_decomp
        ⟨opts.parallel, opts.topological, opts.topologicalDev⟩ project exec hexec fuel
        (seedPending ws) [] []
      rw [List.nil_append] at hh1
      refine ⟨by rw [hact]; simp [processExitCode], rfl, ?_⟩
      dsimp only
      constructor
      · intro hne
        have hnemp : ¬(runLoop ⟨opts.parallel, opts.topological, opts.topologicalDev⟩
            project exec fuel (seedPending ws) [] []).errors.isEmpty = true := by
          intro hemp
          rw [reportExitCode, if_pos hemp] at hne
          exact hne rfl
        have hner : er ≠ [] := by
          intro hnil
          rw [hh1, hnil] at hnemp
          exact hnemp rfl
        obtain ⟨x, hx⟩ := List.exists_mem_of_ne_nil er hner
        cases x with
        | cyclic ns m => exact Or.inl ⟨ns, m, hh1 ▸ hx⟩
        | topoFailed =>
          obtain ⟨htopo, p, hp, hpne⟩ := hh2.mp hx
          exact Or.inr ⟨htopo, p, hp, hpne⟩
      · intro hdisj
        have hmem : (runLoop ⟨opts.parallel, opts.topological, opts.topologicalDev⟩
            project exec fuel (seedPending ws) [] []).errors ≠ [] := by
          rcases hdisj with ⟨ns, m, hm⟩ | ⟨htopo, p, hp, hpne⟩
          · exact List.ne_nil_of_mem hm
          · exact List.ne_nil_of_mem (hh1 ▸ hh2.mpr ⟨htopo, p, hp, hpne⟩)
        rw [reportExitCode, if_neg (by simpa [List.isEmpty_iff] using hmem)]
        simp

/-- Witness for `exit_code_characterization` at the concrete partial-failure
fixture (topological mode, A exits 1): the exit code is non-zero exactly as
characterized. -/
theorem exit_code_characterization_witness :
    (∀ w, c5exec w ≠ .error ()) ∧
    ((∀ e, foreachAction c5opts projAB (some wsA) none c5exec 5 5 = .error e →
      (e = .workspaceRequired ∨ e = .usageInvalidSubcommand) ∧
      processExitCode (foreachAction c5opts projAB (some wsA) none c5exec 5 5) ≠ 0) ∧
    (∀ res, foreachAction c5opts projAB (some wsA) none c5exec 5 5 = .ok res →
      processExitCode (foreachAction c5opts projAB (some wsA) none c5exec 5 5) =
        res.exitCode ∧
      res.exitCode = reportExitCode res.runRes.errors ∧
      (res.exitCode ≠ 0 ↔
        ((∃ ns m, RunError.cyclic ns m ∈ res.runRes.errors) ∨
          ((c5opts.topological || c5opts.topologicalDev) = true ∧
            ∃ p ∈ res.runRes.executed, p.2 ≠ 0))))) :=
  ⟨fun w => by unfold c5exec; split <;> simp,
    exit_code_characterization c5opts projAB (some wsA) none c5exec 5 5
      (fun w => by unfold c5exec; split <;> simp)
      (fun h => by cases h)⟩

/-! Pending-map seeding lemmas. -/

/-- `mapHas` is membership among the map's keys. -/
theorem mapHas_iff_mem (m : PendingMap) (k : Nat) :
    mapHas m k = true ↔ k ∈ m.map Prod.fst := by
  rw [mapHas, List.any_eq_true]
  constructor
  · rintro ⟨e, he, hk⟩
    exact List.mem_map.mpr ⟨e, he, by simpa using hk⟩
  · intro hm
    obtain ⟨e, he, hk⟩ := List.mem_map.mp hm
    exact ⟨e, he, by simpa using hk⟩

/-- `mapSet` leaves the keys unchanged on an update and appends the new key
otherwise. -/
theorem mapSet_map_fst (m : PendingMap) (k : Nat) (v : Workspace) :
    (mapSet m k v).map Prod.fst =
      if mapHas m k = true then m.map Prod.fst else m.map Prod.fst ++ [k] := by
  by_cases h : mapHas m k = true
  · rw [mapSet, if_pos h, if_pos h, List.map_map]
    apply List.map_congr_left
    intro e _
    by_cases hk : (e.1 == k) = true
    · simp only [Function.comp_apply, if_pos hk]
      exact (by simpa using hk : e.1 = k).symm
    · simp only [Function.comp_apply, if_neg hk]
  · rw [mapSet, if_neg h, if_neg h, List.map_append]
    rfl

/-- A member of `mapSet m k v` is a member of `m` or the pair `(k, v)`. -/
theorem mem_mapSet (m : PendingMap) (k : Nat) (v : Workspace) (e : Nat × Workspace)
    (h : e ∈ mapSet m k v) : e ∈ m ∨ e = (k, v) := by
  rw [mapSet] at h
  by_cases hk : mapHas m k = true
  · rw [if_pos hk] at h
    obtain ⟨x, hx, hfx⟩ := List.mem_map.mp h
    by_cases hxk : (x.1 == k) = true
    · rw [if_pos hxk] at hfx
      exact Or.inr hfx.symm
    · rw [if_neg hxk] at hfx
      exact Or.inl (hfx ▸ hx)
  · rw [if_neg hk] at h
    rcases List.mem_append.mp h with h | h
    · exact Or.inl h
    · exact Or.inr (List.mem_singleton.mp h)

/-- Seeding from any key-nodup map keeps the keys nodup: duplicate locator
hashes collapse onto the existing entry. -/
theorem seedAux_keys_nodup : ∀ (ws : List Workspace) (m : PendingMap),
    (m.map Prod.fst).Nodup →
    ((ws.foldl (fun m w => mapSet m w.locatorHash w) m).map Prod.fst).Nodup
  | [], _, h => h
  | w :: ws, m, h => by
    rw [List.foldl_cons]
    apply seedAux_keys_nodup ws
    rw [mapSet_map_fst]
    by_cases hk : mapHas m w.locatorHash = true
    · rwa [if_pos hk]
    · rw [if_neg hk]
      have hnk : w.locatorHash ∉ m.map Prod.fst :=
        fun hmem => hk ((mapHas_iff_mem m _).mpr hmem)
      exact List.Nodup.append h (List.nodup_singleton _)
        fun a ha hb => hnk ((List.mem_singleton.mp hb) ▸ ha)

/-- The map seeded at line 153 has no duplicate locator-hash keys, even when
the selected workspace list contains a workspace twice. -/
theorem seedPending_keys_nodup (ws : List Workspace) :
    ((seedPending ws).map Prod.fst).Nodup :=
  seedAux_keys_nodup ws [] (by simp)

/-- Every entry of a seeded map is keyed by its workspace's locator hash. -/
theorem seedAux_coherent : ∀ (ws : List Workspace) (m : PendingMap),
    (∀ e ∈ m, e.1 = e.2.locatorHash) →
    ∀ e ∈ ws.foldl (fun m w => mapSet m w.locatorHash w) m, e.1 = e.2.locatorHash
  | [], _, h => h
  | w :: ws, m, h => by
    rw [List.foldl_cons]
    apply seedAux_coherent ws
    intro e he
    rcases mem_mapSet m w.locatorHash w e he with h' | h'
    · exact h e h'
    · rw [h']

/-- `mapSet` never loses a key. -/
theorem mapHas_mapSet_mono (m : PendingMap) (k x : Nat) (v : Workspace)
    (h : mapHas m x = true) : mapHas (mapSet m k v) x = true := by
  rw [mapHas_iff_mem, mapSet_map_fst]
  rw [mapHas_iff_mem] at h
  by_cases hk : mapHas m k = true
  · rwa [if_pos hk]
  · rw [if_neg hk]
    exact List.mem_append_left _ h

/-- `mapSet` makes its key present. -/
theorem mapHas_mapSet_self (m : PendingMap) (k : Nat) (v : Workspace) :
    mapHas (mapSet m k v) k = true := by
  rw [mapHas_iff_mem, mapSet_map_fst]
  by_cases hk : mapHas m k = true
  · rw [if_pos hk]
    exact (mapHas_iff_mem m k).mp hk
  · rw [if_neg hk]
    exact List.mem_append_right _ (List.mem_singleton_self k)

/-- Seeding never loses a key. -/
theorem seedAux_has_mono : ∀ (ws : List Workspace) (m : PendingMap) (x : Nat),
    mapHas m x = true →
    mapHas (ws.foldl (fun m w => mapSet m w.locatorHash w) m) x = true
  | [], _, _, h => h
  | w :: ws, m, x, h => by
    rw [List.foldl_cons]
    exact seedAux_has_mono ws _ x (mapHas_mapSet_mono m _ x w h)

/-- Every listed workspace is present in the seeded map. -/
theorem seedAux_has : ∀ (ws : List Workspace) (m : PendingMap) (w : Workspace),
    w ∈ ws →
    mapHas (ws.foldl (fun m w => mapSet m w.locatorHash w) m) w.locatorHash = true
  | [], _, _, h => by simp at h
  | v :: ws, m, w, h => by
    rw [List.foldl_cons]
    rcases List.mem_cons.mp h with rfl | h'
    · exact seedAux_has_mono ws _ _ (mapHas_mapSet_self m _ w)
    · exact seedAux_has ws _ w h'

/-! Round-deletion lemmas. -/

/-- Membership after a round's deletions: an entry survives exactly when it
was pending and none of the dispatched keys is its own. -/
theorem mem_foldl_eraseKey_iff :
    ∀ (disp : List (Nat × Workspace)) (pending : PendingMap) (e : Nat × Workspace),
      e ∈ disp.foldl (fun m d => eraseKey m d.1) pending ↔
        (e ∈ pending ∧ ∀ d ∈ disp, e.1 ≠ d.1)
  | [], pending, e => by simp
  | d :: disp, pending, e => by
    rw [List.foldl_cons, mem_foldl_eraseKey_iff disp]
    constructor
    · rintro ⟨he, hall⟩
      obtain ⟨he', hd⟩ := List.mem_filter.mp he
      refine ⟨he', fun x hx => ?_⟩
      rcases List.mem_cons.mp hx with rfl | hx'
      · simpa using hd
      · exact hall x hx'
    · rintro ⟨he, hall⟩
      refine ⟨List.mem_filter.mpr ⟨he, ?_⟩, fun x hx => hall x (List.mem_cons_of_mem _ hx)⟩
      simpa using hall d (List.mem_cons_self d disp)

/-- The deletions of a round produce a sublist of the pending map. -/
theorem foldl_eraseKey_sublist :
    ∀ (disp : List (Nat × Workspace)) (pending : PendingMap),
      (disp.foldl (fun m d => eraseKey m d.1) pending).Sublist pending
  | [], pending => List.Sublist.refl pending
  | d :: disp, pending => by
    rw [List.foldl_cons]
    exact (foldl_eraseKey_sublist disp _).trans (List.filter_sublist pending)

/-- Unfolding equation of the awaited round in the cons case. -/
theorem runDispatched_cons (exec : Workspace → Except Unit Int)
    (e : Nat × Workspace) (rest : List (Nat × Workspace)) :
    runDispatched exec (e :: rest) =
      match exec e.2 with
      | .ok c => ((e.2, c) :: (runDispatched exec rest).1, (runDispatched exec rest).2)
      | .error _ => ([], true) := rfl

/-- The workspaces of the collected exit codes are a sublist (in fact a
front segment) of the dispatched workspaces. -/
theorem runDispatched_fst_sublist (exec : Workspace → Except Unit Int) :
    ∀ l : List (Nat × Workspace),
      ((runDispatched exec l).1.map Prod.fst).Sublist (l.map Prod.snd)
  | [] => List.Sublist.refl []
  | e :: rest => by
    rw [runDispatched_cons]
    cases hx : exec e.2 with
    | ok c => exact (runDispatched_fst_sublist exec rest).cons₂ e.2
    | error u => exact List.nil_sublist _

/-- When no task raised, the collected exit codes cover exactly the
dispatched workspaces, in order. -/
theorem runDispatched_fst_of_no_raise (exec : Workspace → Except Unit Int) :
    ∀ l : List (Nat × Workspace), (runDispatched exec l).2 = false →
      (runDispatched exec l).1.map Prod.fst = l.map Prod.snd
  | [], _ => rfl
  | e :: rest, h => by
    rw [runDispatched_cons] at h ⊢
    cases hx : exec e.2 with
    | ok c =>
      rw [hx] at h
      dsimp only at h
      simp only [List.map_cons, runDispatched_fst_of_no_raise exec rest h]
    | error u =>
      rw [hx] at h
      simp at h

/-- Across a whole run from a key-nodup, coherently-keyed pending map, the
locator hashes of the executed tasks are pairwise distinct and drawn from
the pending keys. -/
theorem runLoop_executed_keys (cfg : SchedCfg) (project : Project)
    (exec : Workspace → Except Unit Int) :
    ∀ (fuel : Nat) (pending : PendingMap) (processing : List Nat) (errs : List RunError),
      (pending.map Prod.fst).Nodup → (∀ e ∈ pending, e.1 = e.2.locatorHash) →
      ((runLoop cfg project exec fuel pending processing errs).executed.map
          (fun p => p.1.locatorHash)).Nodup ∧
      ∀ x ∈ (runLoop cfg project exec fuel pending processing errs).executed.map
          (fun p => p.1.locatorHash), x ∈ pending.map Prod.fst
  | 0, pending, processing, errs, hnd, hcoh => ⟨by simp [runLoop], by simp [runLoop]⟩
  | fuel + 1, pending, processing, errs, hnd, hcoh => by
    rw [runLoop_succ]
    by_cases hp : pending.isEmpty = true
    · rw [if_pos hp]
      exact ⟨by simp, by simp⟩
    · rw [if_neg hp]
      by_cases he : (!errs.isEmpty) = true
      · rw [if_pos he]
        exact ⟨by simp, by simp⟩
      · rw [if_neg he]
        by_cases hs : (scanRound cfg project pending processing).1.isEmpty = true
        · rw [if_pos hs]
          exact ⟨by simp, by simp⟩
        · rw [if_neg hs]
          have hds : ((scanRound cfg project pending processing).1).Sublist pending :=
            scan_sublist cfg project pending pending processing
          have hKchain : ((scanRound cfg project pending processing).1.map Prod.snd).map
                (fun w => w.locatorHash) =
              (scanRound cfg project pending processing).1.map Prod.fst := by
            rw [List.map_map]
            exact List.map_congr_left fun e hemem => (hcoh e (hds.subset hemem)).symm
          have hKsub : ((scanRound cfg project pending processing).1.map Prod.fst).Sublist
              (pending.map Prod.fst) := hds.map Prod.fst
          have hmap2 : ∀ l : List (Workspace × Int),
              l.map (fun p => p.1.locatorHash) =
                (l.map Prod.fst).map (fun w => w.locatorHash) := by
            intro l
            rw [List.map_map]
            rfl
          have hblock : ((runDispatched exec
                (scanRound cfg project pending processing).1).1.map
                (fun p => p.1.locatorHash)).Sublist
              ((scanRound cfg project pending processing).1.map Prod.fst) := by
            rw [hmap2, ← hKchain]
            exact (runDispatched_fst_sublist exec _).map _
          by_cases hr : (runDispatched exec
              (scanRound cfg project pending processing).1).2 = true
          · rw [if_pos hr]
            exact ⟨List.Nodup.sublist (hblock.trans hKsub) hnd,
              fun x hx => (hblock.trans hKsub).subset hx⟩
          · rw [if_neg hr]
            dsimp only
            have hfst := runDispatched_fst_of_no_raise exec
              (scanRound cfg project pending processing).1 (Bool.eq_false_iff.mpr hr)
            have hblockeq : (runDispatched exec
                  (scanRound cfg project pending processing).1).1.map
                  (fun p => p.1.locatorHash) =
                (scanRound cfg project pending processing).1.map Prod.fst := by
              rw [hmap2, hfst, hKchain]
            have hsubp := foldl_eraseKey_sublist
              (scanRound cfg project pending processing).1 pending
            have hnd' : (((scanRound cfg project pending processing).1.foldl
                  (fun m e => eraseKey m e.1) pending).map Prod.fst).Nodup :=
              List.Nodup.sublist (hsubp.map Prod.fst) hnd
            have hcoh' : ∀ e ∈ (scanRound cfg project pending processing).1.foldl
                  (fun m e => eraseKey m e.1) pending, e.1 = e.2.locatorHash :=
              fun e hmem => hcoh e (hsubp.subset hmem)
            obtain ⟨ihnd, ihsub⟩ := runLoop_executed_keys cfg project exec fuel
              ((scanRound cfg project pending processing).1.foldl
                (fun m e => eraseKey m e.1) pending)
              ((scanRound cfg project pending processing).1.foldl
                (fun s e => s.erase e.2.descriptorHash)
                (scanRound cfg project pending processing).2)
              (if (cfg.topological || cfg.topologicalDev) &&
                  (runDispatched exec (scanRound cfg project pending processing).1).1.any
                    (fun p => !(p.2 == 0)) then errs ++ [.topoFailed] else errs)
              hnd' hcoh'
            rw [List.map_append]
            constructor
            · refine List.Nodup.append ?_ ihnd ?_
              · rw [hblockeq]
                exact List.Nodup.sublist hKsub hnd
              · intro a ha hb
                rw [hblockeq] at ha
                obtain ⟨d, hd, hda⟩ := List.mem_map.mp ha
                obtain ⟨e, hemem, hea⟩ := List.mem_map.mp (ihsub a hb)
                obtain ⟨_, hall⟩ := (mem_foldl_eraseKey_iff _ pending e).mp hemem
                exact hall d hd (by rw [hea, hda])
            · intro x hx
              rcases List.mem_append.mp hx with hx | hx
              · rw [hblockeq] at hx
                exact hKsub.subset hx
              · exact (hsubp.map Prod.fst).subset (ihsub x hx)

/-- C9: the pending map is keyed by locator hash, so a workspace listed more
than once by the Candidate Selector collapses into a single entry at
seeding: the seeded keys are pairwise distinct while every listed workspace
is present; consequently, in the run from the seeded map, every locator
hash occurs at most once among the executed tasks — each workspace's
command runs at most once per run. -/
theorem pending_set_dedup (ws : List Workspace) :
    ((seedPending ws).map Prod.fst).Nodup ∧
    (∀ w ∈ ws, mapHas (seedPending ws) w.locatorHash = true) ∧
    (∀ (cfg : SchedCfg) (project : Project) (exec : Workspace → Except Unit Int)
        (fuel h : Nat),
      ((runLoop cfg project exec fuel (seedPending ws) [] []).executed.map
        (fun p => p.1.locatorHash)).count h ≤ 1) :=
  ⟨seedPending_keys_nodup ws,
    fun w hw => seedAux_has ws [] w hw,
    fun cfg project exec fuel h =>
      List.nodup_iff_count_le_one.mp
        (runLoop_executed_keys cfg project exec fuel (seedPending ws) [] []
          (seedPending_keys_nodup ws)
          (seedAux_coherent ws [] (by simp))).1 h⟩

/-! Concurrency-gate lemmas. -/

/-- Unfolding equation: admission of a start event. -/
theorem gateOk_start (limit : Nat) (running : List Nat) (i : Nat) (rest : List GateEv) :
    gateOk limit running (.start i :: rest) =
      (decide (running.length < limit) && gateOk limit (running ++ [i]) rest) := rfl

/-- Unfolding equation: a finish event releases its slot. -/
theorem gateOk_finish (limit : Nat) (running : List Nat) (i : Nat) (rest : List GateEv) :
    gateOk limit running (.finish i :: rest) = gateOk limit (running.erase i) rest := rfl

/-- Along any gate-respecting event sequence, the running set never exceeds
the limit. -/
theorem gateOk_running_le (limit : Nat) :
    ∀ (p s : List GateEv) (running : List Nat),
      gateOk limit running (p ++ s) = true → running.length ≤ limit →
      (runningAfter running p).length ≤ limit
  | [], _, _, _, hle => hle
  | .start i :: p, s, running, hok, _ => by
    rw [List.cons_append, gateOk_start] at hok
    obtain ⟨hlt, hok'⟩ := Bool.and_eq_true_iff.mp hok
    rw [runningAfter]
    exact gateOk_running_le limit p s (running ++ [i]) hok'
      (by simpa using Nat.succ_le_of_lt (of_decide_eq_true hlt))
  | .finish i :: p, s, running, hok, hle => by
    rw [List.cons_append, gateOk_finish] at hok
    rw [runningAfter]
    exact gateOk_running_le limit p s (running.erase i) hok
      (le_trans (List.erase_sublist i running).length_le hle)

/-- C7: for every whole-run event sequence admitted by the single gate of
size `limitOf parallel jobs cpuCount` (created once at line 147 and shared
across all rounds, so admission at any point — in any round — is judged
against every still-running task), at no prefix do more than that many
tasks run simultaneously; and with parallel off (jobs unset, as the CLI
validation guarantees) the limit is exactly 1. -/
theorem concurrency_gate_bound (parallel : Bool) (jobs cpuCount : Nat)
    (tr : List GateEv)
    (hjobs : parallel = false → jobs = 0)
    (htr : gateOk (limitOf parallel jobs cpuCount) [] tr = true) :
    (∀ p s, tr = p ++ s →
      (runningAfter [] p).length ≤ limitOf parallel jobs cpuCount) ∧
    (parallel = false → limitOf parallel jobs cpuCount = 1) := by
  constructor
  · intro p s hps
    exact gateOk_running_le _ p s [] (hps ▸ htr) (by simp)
  · intro hpar
    simp [limitOf, hpar, hjobs hpar]

/-- A gate-respecting whole-run trace: two tasks overlap, a third is
admitted only after a slot is released. -/
def gateTrace : List GateEv :=
  [.start 1, .start 2, .finish 1, .start 3, .finish 2, .finish 3]

/-- Witness for `concurrency_gate_bound` with `parallel` on, 4 processing
units (limit 2) and the concrete overlapping trace. -/
theorem concurrency_gate_bound_witness :
    gateOk (limitOf true 0 4) [] gateTrace = true ∧
    ((∀ p s, gateTrace = p ++ s →
      (runningAfter [] p).length ≤ limitOf true 0 4) ∧
    (true = false → limitOf true 0 4 = 1)) :=
  ⟨by decide, concurrency_gate_bound true 0 4 gateTrace (fun h => rfl) (by decide)⟩

/-- C8: on every exit path of `runCommand`, both sinks receive their
end-of-output signal and both end promises are awaited; the executor's
result passes through unchanged, so an exception (as opposed to a non-zero
exit code) propagates — on that path the event trace is exactly the sink
shutdown sequence, nothing more; a round whose await rejects ends the loop
immediately with the `raised` outcome (no further round is scanned), and a
run that ends `raised` never returns normally from the action. -/
theorem sinks_closed_on_all_paths :
    (∀ (r : Except Unit Int) (parallel verbose : Bool) (ci : Nat) (eo ee : Bool),
      StreamEv.endStdout ∈ (runCommand r parallel verbose ci eo ee).2 ∧
      StreamEv.endStderr ∈ (runCommand r parallel verbose ci eo ee).2 ∧
      StreamEv.awaitStdoutEnd ∈ (runCommand r parallel verbose ci eo ee).2 ∧
      StreamEv.awaitStderrEnd ∈ (runCommand r parallel verbose ci eo ee).2 ∧
      (runCommand r parallel verbose ci eo ee).1 = r ∧
      (∀ u : Unit, r = .error u →
        (runCommand r parallel verbose ci eo ee).2 =
          (if !parallel && verbose && decide (ci > 1) then [StreamEv.separator] else []) ++
            [.endStdout, .endStderr, .awaitStdoutEnd, .awaitStderrEnd])) ∧
    (∀ (cfg : SchedCfg) (project : Project) (exec : Workspace → Except Unit Int)
        (fuel : Nat) (pending : PendingMap) (processing : List Nat),
      pending ≠ [] →
      (runDispatched exec (scanRound cfg project pending processing).1).2 = true →
      (runLoop cfg project exec (fuel + 1) pending processing []).outcome = .raised ∧
      (runLoop cfg project exec (fuel + 1) pending processing []).roundsScanned = 1) ∧
    (∀ (opts : ForeachOpts) (project : Project) (cwdW : Option Workspace)
        (lif : Option String) (exec : Workspace → Except Unit Int)
        (fuel treeFuel : Nat) (res : ActionResult),
      foreachAction opts project cwdW lif exec fuel treeFuel = .ok res →
      res.runRes.outcome ≠ .raised) := by
  refine ⟨?_, ?_, ?_⟩
  · intro r parallel verbose ci eo ee
    cases r <;> simp [runCommand]
  · intro cfg project exec fuel pending processing hpend hrd
    have hdisp : ¬(scanRound cfg project pending processing).1.isEmpty = true := by
      intro hemp
      rw [List.isEmpty_iff] at hemp
      rw [hemp] at hrd
      simp [runDispatched] at hrd
    rw [runLoop_succ, if_neg (by simpa [List.isEmpty_iff] using hpend),
      if_neg (by simp), if_neg hdisp, if_pos hrd]
    exact ⟨rfl, rfl⟩
  · intro opts project cwdW lif exec fuel treeFuel res hact
    rw [foreachAction] at hact
    split at hact
    · simp at hact
    · split at hact
      · simp at hact
      · split at hact
        · simp at hact
        · dsimp only at hact
          split at hact
          · simp at hact
          · split at hact
            · simp at hact
            · rename_i hout
              cases hact
              simpa using hout

/-- Witness for `sinks_closed_on_all_paths`: with an executor that raises on
every task, the A/B round rejects and the loop ends `raised` after a single
scanned round. -/
theorem sinks_closed_on_all_paths_witness :
    pendAB ≠ [] ∧
    (runDispatched (fun _ => Except.error ()) (scanRound cfgT projAB pendAB []).1).2 = true ∧
    ((runLoop cfgT projAB (fun _ => Except.error ()) 1 pendAB [] []).outcome = .raised ∧
      (runLoop cfgT projAB (fun _ => Except.error ()) 1 pendAB [] []).roundsScanned = 1) :=
  ⟨by decide, by decide,
    sinks_closed_on_all_paths.2.1 cfgT projAB (fun _ => Except.error ()) 0 pendAB []
      (by decide) (by decide)⟩

end Foreach
